import Mathlib

/-!
Shallow embedding of the `00-jq-rs` filter/query engine
(`src/filters.rs`, `src/functions.rs`).

Modelling conventions:
* `serde_json::Value` is the inductive `Value` below.  A `serde_json::Number`
  is one of `PosInt` (a `u64`), `NegInt` (a negative `i64`) or `Float`;
  the embedding `JNumber` mirrors these three variants.  The float payload is
  not tracked: none of the modelled operations inspects it (`as_i64` on a
  float is always `None`, `is_number` is `true`).
* Filter expressions ("needles") are `List Char`; Rust byte indices of
  `str::find` coincide with character indices for the ASCII expressions the
  engine understands.
* A fallible Rust function returns `Res α = Option (Except MyErrors α)`:
  `none` models a panic (`unwrap`/`expect`/slice out of range/arithmetic
  overflow in a debug build), `some (Except.error e)` a returned `Err(e)`,
  `some (Except.ok a)` a returned `Ok(a)`.
* `Vec::sort_unstable` on `Vec<usize>` is modelled by `List.insertionSort`:
  on a decidable total order any sorting algorithm produces the same list.
-/

inductive JNumber where
  | posInt : Nat → JNumber
  | negInt : Int → JNumber
  | float : JNumber

inductive Value where
  | null : Value
  | bool : Bool → Value
  | num : JNumber → Value
  | str : List Char → Value
  | arr : List Value → Value
  | obj : List (List Char × Value) → Value

/-- The error enumeration `MyErrors` of `filters.rs` (the `JSONError` variant
belongs to document loading and is unreachable in the evaluation core, so it
is omitted; `ParseError`'s `ParseIntError` payload is not tracked). -/
inductive MyErrors where
  | keyNotFound : List Char → MyErrors
  | invalidNeedle : List Char → MyErrors
  | dictionaryNotFound : MyErrors
  | listNotFound : MyErrors
  | parseError : MyErrors
  | indexOutOfBounds : MyErrors
  | missingBrackets : MyErrors
  | invalidInput : MyErrors

/-- The result type of one Rust call: `none` = panic, otherwise `Ok`/`Err`. -/
abbrev Res (α : Type) : Type := Option (Except MyErrors α)

def okR {α : Type} (a : α) : Res α := some (Except.ok a)

def errR {α : Type} (e : MyErrors) : Res α := some (Except.error e)

def panicked {α : Type} : Res α := none

/-- Sequencing of fallible Rust computations: a panic or an `Err` aborts. -/
def bindRes {α β : Type} (m : Res α) (f : α → Res β) : Res β :=
  match m with
  | none => none
  | some (Except.error e) => some (Except.error e)
  | some (Except.ok a) => f a

/-! ### String utilities mirroring the `str` methods the engine uses -/

/-- `str::find(pat)` / the first index where `pat` occurs as a substring. -/
def findSub (pat : List Char) : List Char → Option Nat
  | [] => if pat = [] then some 0 else none
  | c :: rest =>
    if pat.isPrefixOf (c :: rest) then some 0
    else (findSub pat rest).map (· + 1)

/-- `str::contains(pat)` for a substring pattern. -/
def containsSub (pat s : List Char) : Bool := (findSub pat s).isSome

/-- `str::contains(c)` for a single-character pattern. -/
def containsCh (c : Char) (s : List Char) : Bool := containsSub [c] s

/-- Rust slice `&s[a..b]`: `none` models the byte-range panic. -/
def sliceStr (s : List Char) (a b : Nat) : Option (List Char) :=
  if a ≤ b ∧ b ≤ s.length then some ((s.take b).drop a) else none

/-- Fueled worker for `str::split(pat)` (the fuel is always sufficient at the
call sites, which pass `s.length + 1` and split on a nonempty pattern). -/
def splitSubF : Nat → List Char → List Char → List (List Char)
  | 0, _, s => [s]
  | fuel + 1, sep, s =>
    match findSub sep s with
    | none => [s]
    | some i => s.take i :: splitSubF fuel sep (s.drop (i + sep.length))

/-- `str::split(pat)` collected into a vector. -/
def splitSub (sep s : List Char) : List (List Char) := splitSubF (s.length + 1) sep s

/-- Numeric value of an ASCII digit character, `none` otherwise. -/
def digitVal (c : Char) : Option Nat :=
  if 48 ≤ c.toNat ∧ c.toNat ≤ 57 then some (c.toNat - 48) else none

def parseGo : List Char → Nat → Option Nat
  | [], acc => some acc
  | c :: rest, acc =>
    match digitVal c with
    | none => none
    | some d => parseGo rest (acc * 10 + d)

/-- `str::parse::<usize>()`: an optional leading `+`, then at least one
decimal digit, value below `2^64` (larger values overflow to
`ParseIntError`, indistinguishable here from a malformed string). -/
def parseUsize (s : List Char) : Option Nat :=
  let body := if s.head? = some '+' then s.tail else s
  if body.isEmpty then none
  else
    match parseGo body 0 with
    | none => none
    | some n => if n < 2 ^ 64 then some n else none

def digitOf : Nat → Char
  | 0 => '0'
  | 1 => '1'
  | 2 => '2'
  | 3 => '3'
  | 4 => '4'
  | 5 => '5'
  | 6 => '6'
  | 7 => '7'
  | 8 => '8'
  | _ => '9'

/-- Fueled decimal printer (the wrapper passes sufficient fuel). -/
def natToCharsF : Nat → Nat → List Char
  | 0, _ => []
  | fuel + 1, n =>
    if n < 10 then [digitOf n]
    else natToCharsF fuel (n / 10) ++ [digitOf (n % 10)]

/-- Decimal representation of a natural number, used to build concrete
filter expressions such as `.[a:b]` and `del(.[i, j])` in theorems. -/
def natToChars (n : Nat) : List Char := natToCharsF (n + 1) n

/-- Join string tokens with a separator (used to build index lists). -/
def joinSep (sep : List Char) : List (List Char) → List Char
  | [] => []
  | [t] => t
  | t :: ts => t ++ sep ++ joinSep sep ts

/-! ### The value helpers used by `functions.rs` -/

def i64min : Int := -(2 ^ 63)

def i64max : Int := 2 ^ 63 - 1

/-- `serde_json::Number::as_i64`. -/
def number_as_i64 : JNumber → Option Int
  | JNumber.posInt n => if (n : Int) ≤ i64max then some (n : Int) else none
  | JNumber.negInt k => some k
  | JNumber.float => none

/-- `serde_json::Number::from(k)` for an `i64` argument. -/
def numOfInt (k : Int) : JNumber :=
  if 0 ≤ k then JNumber.posInt k.toNat else JNumber.negInt k

def value_is_number : Value → Bool
  | Value.num _ => true
  | _ => false

def value_is_string : Value → Bool
  | Value.str _ => true
  | _ => false

def value_as_i64 : Value → Option Int
  | Value.num n => number_as_i64 n
  | _ => none

def value_as_string : Value → Option (List Char)
  | Value.str s => some s
  | _ => none

/-- Checked `i64` addition: `none` models the debug-build overflow panic of
`Iterator::sum::<i64>`. -/
def i64add (a b : Int) : Option Int :=
  if i64min ≤ a + b ∧ a + b ≤ i64max then some (a + b) else none

/-- Left fold of checked `i64` addition, as `iter().sum()` performs it. -/
def i64sum : List Int → Int → Option Int
  | [], acc => some acc
  | x :: xs, acc =>
    match i64add acc x with
    | none => none
    | some s => i64sum xs s

/-! ### `functions.rs` -/

/-- `length_function`.  The `Number` arm is
`num.as_i64().expect(..).abs()`: a number with no `i64` value panics via
`expect`, and `i64::MIN.abs()` is the debug overflow panic. -/
def length_function (input : Value) : Res Value :=
  match input with
  | Value.arr xs => okR (Value.num (JNumber.posInt xs.length))
  | Value.num n =>
    match number_as_i64 n with
    | none => panicked
    | some k => if k = i64min then panicked else okR (Value.num (JNumber.posInt k.natAbs))
  | Value.str s => okR (Value.num (JNumber.posInt s.length))
  | Value.null => okR (Value.num (JNumber.posInt 0))
  | Value.obj kvs => okR (Value.num (JNumber.posInt kvs.length))
  | Value.bool _ => errR MyErrors.invalidInput

/-- `add_function` (with the inlined `IntArray::add` / `StringArray::add`):
all-numeric arrays sum the `filter_map(as_i64)` image, all-string arrays
concatenate, everything else is `InvalidInput`. -/
def add_function (input : Value) : Res Value :=
  match input with
  | Value.arr xs =>
    if xs.all value_is_number then
      match i64sum (xs.filterMap value_as_i64) 0 with
      | none => panicked
      | some s => okR (Value.num (numOfInt s))
    else if xs.all value_is_string then
      okR (Value.str (xs.filterMap value_as_string).flatten)
    else errR MyErrors.invalidInput
  | _ => errR MyErrors.invalidInput

/-- The `for index in indices_to_remove { if index < array.len() {
array.remove(index) } }` loop of `delete_function`'s array arm.  Note the
bounds check uses the current, already shrunk length. -/
def removeIndices (arrv : List Value) : List Nat → List Value
  | [] => arrv
  | i :: rest =>
    removeIndices (if i < arrv.length then arrv.eraseIdx i else arrv) rest

/-- `delete_function`.  The sub-expression sits between the first `(` and the
first `)`; the array form parses the text between the first `[` and the first
`]` of the whole needle, split on the exact separator `", "`, keeping only
the tokens that parse as `usize`, sorts descending and removes one at a
time. -/
def delete_function (input : Value) (needle : List Char) : Res Value :=
  if containsCh '(' needle && containsCh ')' needle then
    match findSub "(".toList needle, findSub ")".toList needle with
    | some pstart, some pstop =>
      match sliceStr needle (pstart + 1) pstop with
      | none => panicked
      | some sub_needle =>
        if ".".toList.isPrefixOf sub_needle && !containsCh '[' sub_needle
            && !containsCh ']' sub_needle then
          let key := sub_needle.drop 1
          match input with
          | Value.obj kvs =>
            if kvs.any (fun kv => kv.1 == key) then
              okR (Value.obj (kvs.filter (fun kv => !(kv.1 == key))))
            else errR (MyErrors.keyNotFound key)
          | _ => errR MyErrors.dictionaryNotFound
        else if ".".toList.isPrefixOf sub_needle && containsCh '[' sub_needle
            && containsCh ']' sub_needle then
          match findSub "[".toList needle, findSub "]".toList needle with
          | some istart, some istop =>
            match sliceStr needle (istart + 1) istop with
            | none => panicked
            | some inner =>
              let indices := (splitSub ", ".toList inner).filterMap parseUsize
              match input with
              | Value.arr xs =>
                okR (Value.arr (removeIndices xs (List.insertionSort (· ≤ ·) indices).reverse))
              | _ => errR MyErrors.listNotFound
          | _, _ => errR MyErrors.missingBrackets
        else errR MyErrors.invalidInput
    | _, _ => errR MyErrors.missingBrackets
  else errR MyErrors.missingBrackets

/-! ### `filters.rs` -/

/-- `object_identifier_filter`: strip the leading `.`, look the key up;
`Value::get(&str)` yields `Some` only on objects. -/
def object_identifier_filter (input : Value) (needle : List Char) : Res Value :=
  let key := needle.drop 1
  match input with
  | Value.obj kvs =>
    match kvs.find? (fun kv => kv.1 == key) with
    | some kv => okR kv.2
    | none => errR (MyErrors.keyNotFound key)
  | _ => errR (MyErrors.keyNotFound key)

/-- `array_index`: parse a `usize`, then bounds-check against
`input.as_array().unwrap()` (panics on a non-array). -/
def array_index (input : Value) (index_str : List Char) : Res Value :=
  match parseUsize index_str with
  | none => errR MyErrors.parseError
  | some index =>
    match input with
    | Value.arr xs =>
      if index < xs.length then okR (xs.getD index Value.null)
      else errR MyErrors.indexOutOfBounds
    | _ => panicked

/-- `array_slice`: split on `:`, parse both bounds (`Vec` indexing `[0]`,
`[1]` panics when missing), then `start < end && end <= len` — the `&&`
short-circuits, so the array `unwrap` is reached only when `start < end`. -/
def array_slice (input : Value) (index_str : List Char) : Res Value :=
  let indices := splitSub ":".toList index_str
  match indices[0]? with
  | none => panicked
  | some i0 =>
    match parseUsize i0 with
    | none => errR MyErrors.parseError
    | some start =>
      match indices[1]? with
      | none => panicked
      | some i1 =>
        match parseUsize i1 with
        | none => errR MyErrors.parseError
        | some stop =>
          if start < stop then
            match input with
            | Value.arr xs =>
              if stop ≤ xs.length then
                okR (Value.arr ((xs.drop start).take (stop - start)))
              else errR MyErrors.indexOutOfBounds
            | _ => panicked
          else errR MyErrors.indexOutOfBounds

/-- `array_iterator`: clone of each element, in order; `ListNotFound` on a
non-array. -/
def array_iterator (input : Value) : Res (List Value) :=
  match input with
  | Value.arr xs => okR xs
  | _ => errR MyErrors.listNotFound

inductive FilterResult where
  | singleValue : Value → FilterResult
  | iterator : List Value → FilterResult

/-- `filter_input`: classify one stage and evaluate it. -/
def filter_input (input : Value) (needle : List Char) : Res FilterResult :=
  if needle = ".".toList then okR (FilterResult.singleValue input)
  else if ".".toList.isPrefixOf needle && containsCh '[' needle && containsCh ']' needle then
    match input with
    | Value.arr _ =>
      match findSub "[".toList needle, findSub "]".toList needle with
      | some istart, some istop =>
        match sliceStr needle (istart + 1) istop with
        | none => panicked
        | some index_str =>
          if index_str.isEmpty then
            bindRes (array_iterator input) fun xs => okR (FilterResult.iterator xs)
          else if containsCh ':' index_str then
            bindRes (array_slice input index_str) fun v => okR (FilterResult.singleValue v)
          else
            bindRes (array_index input index_str) fun v => okR (FilterResult.singleValue v)
      | _, _ => errR MyErrors.missingBrackets
    | _ => errR MyErrors.listNotFound
  else if ".".toList.isPrefixOf needle then
    bindRes (object_identifier_filter input needle) fun v => okR (FilterResult.singleValue v)
  else if "add".toList.isPrefixOf needle then
    bindRes (add_function input) fun v => okR (FilterResult.singleValue v)
  else if "length".toList.isPrefixOf needle then
    bindRes (length_function input) fun v => okR (FilterResult.singleValue v)
  else if "del".toList.isPrefixOf needle then
    bindRes (delete_function input needle) fun v => okR (FilterResult.singleValue v)
  else errR (MyErrors.invalidNeedle needle)

/-- The `for item in iter` loop inside `pipe`'s fan-out arm: each element of
the sequence goes through `filter_input` with the single next stage; a
`SingleValue` outcome is pushed, an `Iterator` outcome is flattened in, an
error aborts with that element's error. -/
def fanOutStep (items : List Value) (next_needle : List Char) : Res (List Value) :=
  match items with
  | [] => okR []
  | item :: rest =>
    match filter_input item next_needle with
    | none => none
    | some (Except.error e) => some (Except.error e)
    | some (Except.ok (FilterResult.singleValue v)) =>
      bindRes (fanOutStep rest next_needle) fun vs => okR (v :: vs)
    | some (Except.ok (FilterResult.iterator nested)) =>
      bindRes (fanOutStep rest next_needle) fun vs => okR (nested ++ vs)

/-- The `while let Some(sub_needle) = sub_needles.next()` loop of `pipe`:
a `SingleValue` becomes the new current value; an `Iterator` consumes the
*next* stage from the same stage iterator and fans out over it, unless it is
terminal, in which case it is returned unresolved. -/
def pipeLoop (current : Value) : List (List Char) → Res FilterResult
  | [] => okR (FilterResult.singleValue current)
  | n :: rest =>
    match filter_input current n with
    | none => none
    | some (Except.error e) => some (Except.error e)
    | some (Except.ok (FilterResult.singleValue v)) => pipeLoop v rest
    | some (Except.ok (FilterResult.iterator items)) =>
      match rest with
      | [] => okR (FilterResult.iterator items)
      | n2 :: rest2 =>
        match fanOutStep items n2 with
        | none => none
        | some (Except.error e) => some (Except.error e)
        | some (Except.ok ls) => pipeLoop (Value.arr ls) rest2

/-- `pipe`: split on the literal `" | "` and run the staging loop, or
evaluate a single stage directly. -/
def pipe (input : Value) (needle : List Char) : Res FilterResult :=
  if containsSub " | ".toList needle then pipeLoop input (splitSub " | ".toList needle)
  else filter_input input needle

/-- Keep the elements of `xs` whose position (starting at `k`) is not listed
in `ds` — the claims' notion of removing exactly the listed positions. -/
def keepNot (ds : List Nat) : List Value → Nat → List Value
  | [], _ => []
  | x :: xs, k =>
    if k ∈ ds then keepNot ds xs (k + 1) else x :: keepNot ds xs (k + 1)

/-! ### Decimal printing and parsing round-trip -/

theorem digitVal_digitOf {d : Nat} (h : d < 10) : digitVal (digitOf d) = some d := by
  interval_cases d <;> decide

theorem digitOf_toNat {d : Nat} (h : d < 10) : (digitOf d).toNat = 48 + d := by
  interval_cases d <;> decide

theorem natToCharsF_digits :
    ∀ fuel n, n < fuel → ∀ c ∈ natToCharsF fuel n, 48 ≤ c.toNat ∧ c.toNat ≤ 57 := by
  intro fuel
  induction fuel with
  | zero => intro n hn; omega
  | succ f ih =>
    intro n hn c hc
    by_cases h10 : n < 10
    · simp only [natToCharsF, if_pos h10, List.mem_singleton] at hc
      subst hc
      rw [digitOf_toNat h10]
      omega
    · simp only [natToCharsF, if_neg h10, List.mem_append, List.mem_singleton] at hc
      rcases hc with hc | hc
      · exact ih (n / 10) (by omega) c hc
      · subst hc
        rw [digitOf_toNat (Nat.mod_lt n (by omega))]
        have := Nat.mod_lt n (show 0 < 10 by omega)
        omega

theorem natToChars_digits (n : Nat) : ∀ c ∈ natToChars n, 48 ≤ c.toNat ∧ c.toNat ≤ 57 :=
  natToCharsF_digits (n + 1) n (Nat.lt_succ_self n)

theorem natToCharsF_ne_nil : ∀ fuel n, n < fuel → natToCharsF fuel n ≠ [] := by
  intro fuel
  induction fuel with
  | zero => intro n hn; omega
  | succ f _ =>
    intro n _
    by_cases h10 : n < 10
    · simp [natToCharsF, if_pos h10]
    · simp [natToCharsF, if_neg h10]

theorem natToChars_ne_nil (n : Nat) : natToChars n ≠ [] :=
  natToCharsF_ne_nil (n + 1) n (Nat.lt_succ_self n)

theorem parseGo_append (xs ys : List Char) (acc : Nat) :
    parseGo (xs ++ ys) acc = (parseGo xs acc).bind fun a => parseGo ys a := by
  induction xs generalizing acc with
  | nil => simp [parseGo]
  | cons c cs ih =>
    simp only [List.cons_append, parseGo]
    cases digitVal c with
    | none => simp
    | some d => simp [ih]

theorem parseGo_natToCharsF :
    ∀ fuel n acc, n < fuel →
      parseGo (natToCharsF fuel n) acc =
        some (acc * 10 ^ (natToCharsF fuel n).length + n) := by
  intro fuel
  induction fuel with
  | zero => intro n acc hn; omega
  | succ f ih =>
    intro n acc hn
    by_cases h10 : n < 10
    · simp [natToCharsF, if_pos h10, parseGo, digitVal_digitOf h10]
    · have hrec : n / 10 < f := by
        have := Nat.div_lt_self (show 0 < n by omega) (show 1 < 10 by omega)
        omega
      have hm : n % 10 < 10 := Nat.mod_lt n (by omega)
      simp only [natToCharsF, if_neg h10]
      rw [parseGo_append, ih (n / 10) acc hrec]
      simp only [Option.bind, parseGo, digitVal_digitOf hm, List.length_append,
        List.length_singleton]
      congr 1
      rw [pow_succ]
      have hdm : 10 * (n / 10) + n % 10 = n := Nat.div_add_mod n 10
      calc (acc * 10 ^ (natToCharsF f (n / 10)).length + n / 10) * 10 + n % 10
          = acc * (10 ^ (natToCharsF f (n / 10)).length * 10) + (10 * (n / 10) + n % 10) := by
            ring
        _ = acc * (10 ^ (natToCharsF f (n / 10)).length * 10) + n := by rw [hdm]

theorem parseUsize_natToChars {n : Nat} (h : n < 2 ^ 64) : parseUsize (natToChars n) = some n := by
  have hne := natToChars_ne_nil n
  have hgo : parseGo (natToChars n) 0 = some (0 * 10 ^ (natToChars n).length + n) :=
    parseGo_natToCharsF (n + 1) n 0 (Nat.lt_succ_self n)
  obtain ⟨c, t, hct⟩ : ∃ c t, natToChars n = c :: t := by
    cases hx : natToChars n with
    | nil => exact absurd hx hne
    | cons c t => exact ⟨c, t, rfl⟩
  have hc : 48 ≤ c.toNat ∧ c.toNat ≤ 57 := natToChars_digits n c (by rw [hct]; simp)
  have hplus : ¬ (natToChars n).head? = some '+' := by
    rw [hct]
    simp only [List.head?_cons, Option.some.injEq]
    intro hcp
    rw [hcp] at hc
    revert hc
    decide
  have hiE : ¬ ((natToChars n).isEmpty = true) := by
    rw [List.isEmpty_iff]
    exact hne
  simp only [parseUsize, if_neg hplus, if_neg hiE, hgo]
  simp only [Nat.zero_mul, Nat.zero_add]
  rw [if_pos h]

/-! ### Substring search and split lemmas -/

theorem digit_ne_of_toNat {c x : Char} (hd : 48 ≤ c.toNat ∧ c.toNat ≤ 57)
    (hx : x.toNat < 48 ∨ 57 < x.toNat) : c ≠ x := by
  intro hcx
  subst hcx
  omega

theorem isPrefixOf_cons_ne {p c : Char} {pr rest : List Char} (h : c ≠ p) :
    (p :: pr).isPrefixOf (c :: rest) = false := by
  simp only [List.isPrefixOf, Bool.and_eq_false_iff]
  left
  exact beq_eq_false_iff_ne.mpr (fun hpc => h hpc.symm)

theorem isPrefixOf_nil_left (l : List Char) : List.isPrefixOf [] l = true := by
  cases l <;> rfl

theorem isPrefixOf_cons_cons (p c : Char) (pr rest : List Char) :
    (p :: pr).isPrefixOf (c :: rest) = ((p == c) && pr.isPrefixOf rest) := rfl

theorem findSub_cons_ne {p c : Char} {pr : List Char} (rest : List Char) (h : c ≠ p) :
    findSub (p :: pr) (c :: rest) = (findSub (p :: pr) rest).map (· + 1) := by
  rw [findSub, isPrefixOf_cons_ne h]
  simp

theorem findSub_single_hit (c : Char) (rest : List Char) : findSub [c] (c :: rest) = some 0 := by
  rw [findSub, if_pos]
  rw [isPrefixOf_cons_cons, isPrefixOf_nil_left, beq_self_eq_true]
  rfl

theorem isPrefixOf_self_append (l t : List Char) : l.isPrefixOf (l ++ t) = true := by
  rw [List.isPrefixOf_iff_prefix]
  exact List.prefix_append l t

theorem findSub_self_append (p : Char) (pr t : List Char) :
    findSub (p :: pr) ((p :: pr) ++ t) = some 0 := by
  have h : ((p :: pr).isPrefixOf ((p :: pr) ++ t)) = true := isPrefixOf_self_append (p :: pr) t
  rw [List.cons_append, findSub, ← List.cons_append, if_pos h]

theorem findSub_none_of_ne {p : Char} {pr s : List Char} (h : ∀ x ∈ s, x ≠ p) :
    findSub (p :: pr) s = none := by
  induction s with
  | nil => rfl
  | cons c cs ih =>
    have hc : c ≠ p := h c (by simp)
    have ihx := ih (fun x hx => h x (by simp [hx]))
    simp [findSub, isPrefixOf_cons_ne hc, ihx]

theorem findSub_append_of_ne {p : Char} {pr : List Char} (xs ys : List Char)
    (h : ∀ x ∈ xs, x ≠ p) :
    findSub (p :: pr) (xs ++ ys) = (findSub (p :: pr) ys).map (· + xs.length) := by
  induction xs with
  | nil =>
    simp only [List.nil_append, List.length_nil]
    cases findSub (p :: pr) ys <;> simp
  | cons c cs ih =>
    have hc : c ≠ p := h c (by simp)
    have ihx := ih (fun x hx => h x (by simp [hx]))
    rw [List.cons_append, findSub, isPrefixOf_cons_ne hc]
    simp only [Bool.false_eq_true, if_false, ihx]
    cases findSub (p :: pr) ys with
    | none => simp
    | some a =>
      simp only [Option.map_some', List.length_cons]
      exact congrArg some (by omega)

theorem findSub_boundary {p : Char} {pr : List Char} (t rest : List Char)
    (h : ∀ x ∈ t, x ≠ p) :
    findSub (p :: pr) (t ++ ((p :: pr) ++ rest)) = some t.length := by
  rw [findSub_append_of_ne t _ h, findSub_self_append]
  simp

theorem splitSubF_joinSep {p : Char} {pr : List Char} :
    ∀ (parts : List (List Char)) (fuel : Nat), parts ≠ [] →
      (∀ t ∈ parts, ∀ c ∈ t, c ≠ p) →
      (joinSep (p :: pr) parts).length < fuel →
      splitSubF fuel (p :: pr) (joinSep (p :: pr) parts) = parts := by
  intro parts
  induction parts with
  | nil => intro fuel hne; exact absurd rfl hne
  | cons t ts ih =>
    intro fuel _ hch hlen
    cases ts with
    | nil =>
      cases fuel with
      | zero => omega
      | succ f =>
        have hnone : findSub (p :: pr) (joinSep (p :: pr) [t]) = none :=
          findSub_none_of_ne (fun x hx => hch t (by simp) x hx)
        simp only [splitSubF, hnone]
        rfl
    | cons t2 ts2 =>
      cases fuel with
      | zero => omega
      | succ f =>
        have hJ : joinSep (p :: pr) (t :: t2 :: ts2) =
            t ++ ((p :: pr) ++ joinSep (p :: pr) (t2 :: ts2)) := by
          simp [joinSep, List.append_assoc]
        have hfind : findSub (p :: pr) (joinSep (p :: pr) (t :: t2 :: ts2)) = some t.length := by
          rw [hJ]
          exact findSub_boundary t _ (fun x hx => hch t (by simp) x hx)
        simp only [splitSubF, hfind]
        have htake : (joinSep (p :: pr) (t :: t2 :: ts2)).take t.length = t := by
          rw [hJ, List.take_left]
        have hdrop : (joinSep (p :: pr) (t :: t2 :: ts2)).drop (t.length + (p :: pr).length) =
            joinSep (p :: pr) (t2 :: ts2) := by
          rw [hJ, ← List.append_assoc, ← List.length_append, List.drop_left]
        rw [htake, hdrop]
        have hlen2 : (joinSep (p :: pr) (t2 :: ts2)).length < f := by
          rw [hJ] at hlen
          simp only [List.length_append, List.length_cons] at hlen
          omega
        rw [ih f (by simp) (fun u hu c hc => hch u (by simp [hu]) c hc) hlen2]

theorem splitSub_joinSep {p : Char} {pr : List Char} (parts : List (List Char))
    (hne : parts ≠ []) (hch : ∀ t ∈ parts, ∀ c ∈ t, c ≠ p) :
    splitSub (p :: pr) (joinSep (p :: pr) parts) = parts :=
  splitSubF_joinSep parts _ hne hch (Nat.lt_succ_self _)

theorem splitSub_of_ne {p : Char} {pr s : List Char} (h : ∀ x ∈ s, x ≠ p) :
    splitSub (p :: pr) s = [s] := by
  have hnone := @findSub_none_of_ne p pr s h
  simp [splitSub, splitSubF, hnone]

theorem mem_joinSep {sep : List Char} {parts : List (List Char)} {c : Char}
    (h : c ∈ joinSep sep parts) : c ∈ sep ∨ ∃ t ∈ parts, c ∈ t := by
  induction parts with
  | nil => simp [joinSep] at h
  | cons t ts ih =>
    cases ts with
    | nil =>
      simp only [joinSep] at h
      right
      exact ⟨t, by simp, h⟩
    | cons t2 ts2 =>
      simp only [joinSep, List.mem_append] at h
      rcases h with (h | h) | h
      · right; exact ⟨t, by simp, h⟩
      · left; exact h
      · rcases ih h with h' | ⟨u, hu, hc⟩
        · left; exact h'
        · right; exact ⟨u, by simp [hu], hc⟩

/-! ### Removal of listed positions -/

theorem keepNot_nil (xs : List Value) (k : Nat) : keepNot [] xs k = xs := by
  induction xs generalizing k with
  | nil => rfl
  | cons x xs ih => simp [keepNot, ih]

theorem keepNot_congr {ds ds' : List Nat} (xs : List Value) (k : Nat)
    (h : ∀ j, k ≤ j → j < k + xs.length → (j ∈ ds ↔ j ∈ ds')) :
    keepNot ds xs k = keepNot ds' xs k := by
  induction xs generalizing k with
  | nil => rfl
  | cons x xs ih =>
    have hk : (k ∈ ds) ↔ (k ∈ ds') := h k le_rfl (by simp)
    have ih' := ih (k + 1) (fun j h1 h2 => h j (by omega) (by simp at h2 ⊢; omega))
    by_cases hin : k ∈ ds
    · rw [keepNot, if_pos hin, keepNot, if_pos (hk.mp hin), ih']
    · rw [keepNot, if_neg hin, keepNot, if_neg (fun hx => hin (hk.mpr hx)), ih']

theorem keepNot_all_out {ds : List Nat} (xs : List Value) (k : Nat)
    (h : ∀ j ∈ ds, j < k) : keepNot ds xs k = xs := by
  induction xs generalizing k with
  | nil => rfl
  | cons x xs ih =>
    have hk : k ∉ ds := fun hin => absurd (h k hin) (by omega)
    rw [keepNot, if_neg hk, ih (k + 1) (fun j hj => by have := h j hj; omega)]

theorem keepNot_append (ds : List Nat) (as bs : List Value) (k : Nat) :
    keepNot ds (as ++ bs) k = keepNot ds as k ++ keepNot ds bs (k + as.length) := by
  induction as generalizing k with
  | nil => simp [keepNot]
  | cons a as ih =>
    have hlen : k + 1 + as.length = k + (as.length + 1) := by omega
    rw [List.cons_append]
    show (if k ∈ ds then keepNot ds (as ++ bs) (k + 1) else a :: keepNot ds (as ++ bs) (k + 1)) =
      (if k ∈ ds then keepNot ds as (k + 1) else a :: keepNot ds as (k + 1)) ++
        keepNot ds bs (k + (a :: as).length)
    by_cases hin : k ∈ ds
    · rw [if_pos hin, if_pos hin, ih (k + 1), List.length_cons, hlen]
    · rw [if_neg hin, if_neg hin, List.cons_append, ih (k + 1), List.length_cons, hlen]

theorem removeIndices_keepNot (ds : List Nat) :
    ∀ xs : List Value, ds.Pairwise (fun a b => b < a) → removeIndices xs ds = keepNot ds xs 0 := by
  induction ds with
  | nil => intro xs _; rw [removeIndices, keepNot_nil]
  | cons i rest ih =>
    intro xs hp
    have hlt : ∀ j ∈ rest, j < i := (List.pairwise_cons.mp hp).1
    have hrest : rest.Pairwise (fun a b => b < a) := (List.pairwise_cons.mp hp).2
    rw [removeIndices]
    by_cases hi : i < xs.length
    · rw [if_pos hi, ih _ hrest]
      have hxs : xs = xs.take i ++ (xs[i] :: xs.drop (i + 1)) := by
        conv_lhs => rw [← List.take_append_drop i xs]
        rw [List.drop_eq_getElem_cons hi]
      have htl : (xs.take i).length = i := by
        rw [List.length_take]
        omega
      have herase : xs.eraseIdx i = xs.take i ++ xs.drop (i + 1) :=
        List.eraseIdx_eq_take_drop_succ xs i
      rw [herase, keepNot_append, htl]
      conv_rhs => rw [hxs]
      rw [keepNot_append, htl]
      simp only [Nat.zero_add]
      have h1 : keepNot rest (xs.take i) 0 = keepNot (i :: rest) (xs.take i) 0 := by
        apply keepNot_congr
        intro j _ hj
        rw [htl] at hj
        simp only [List.mem_cons]
        constructor
        · intro hr; exact Or.inr hr
        · rintro (hji | hr)
          · omega
          · exact hr
      have h2 : keepNot rest (xs.drop (i + 1)) i = xs.drop (i + 1) :=
        keepNot_all_out _ i (fun j hj => hlt j hj)
      have h3 : keepNot (i :: rest) (xs[i] :: xs.drop (i + 1)) i = xs.drop (i + 1) := by
        rw [keepNot, if_pos (by simp)]
        exact keepNot_all_out _ (i + 1) (by
          intro j hj
          simp only [List.mem_cons] at hj
          rcases hj with hj | hj
          · omega
          · have := hlt j hj; omega)
      rw [h1, h2, h3]
    · rw [if_neg hi, ih _ hrest]
      apply keepNot_congr
      intro j _ hj
      simp only [Nat.zero_add] at hj
      simp only [List.mem_cons]
      constructor
      · intro hr; exact Or.inr hr
      · rintro (hji | hr)
        · omega
        · exact hr

/-- The sorted-descending removal the code performs equals removing exactly
the listed positions, provided the listed indices are pairwise distinct. -/
theorem removeIndices_sortDesc (xs : List Value) (is : List Nat) (hnd : is.Nodup) :
    removeIndices xs (List.insertionSort (· ≤ ·) is).reverse = keepNot is xs 0 := by
  have hsorted : (List.insertionSort (· ≤ ·) is).Sorted (· ≤ ·) :=
    List.sorted_insertionSort (· ≤ ·) is
  have hperm : (List.insertionSort (· ≤ ·) is).Perm is := List.perm_insertionSort (· ≤ ·) is
  have hnd' : (List.insertionSort (· ≤ ·) is).reverse.Nodup :=
    List.nodup_reverse.mpr (hperm.symm.nodup hnd)
  have hge : (List.insertionSort (· ≤ ·) is).reverse.Pairwise (fun a b => b ≤ a) :=
    List.pairwise_reverse.mpr hsorted
  have hgt : (List.insertionSort (· ≤ ·) is).reverse.Pairwise (fun a b => b < a) :=
    (hge.and hnd').imp (fun h => by omega)
  rw [removeIndices_keepNot _ xs hgt]
  apply keepNot_congr
  intro j _ _
  rw [List.mem_reverse, hperm.mem_iff]

/-! ### Facts supporting the `add` claims -/

theorem filterMap_as_string_map_str (ss : List (List Char)) :
    (ss.map Value.str).filterMap value_as_string = ss := by
  induction ss with
  | nil => rfl
  | cons s ss ih => simp [List.filterMap_cons, value_as_string, ih]

/-- Claim C7: evaluating the identity expression `.` returns `Single` of the
input value unchanged, for every Value. -/
theorem C7_identity (v : Value) : pipe v ".".toList = okR (FilterResult.singleValue v) := rfl

/-- Claim C10: `del`'s array form splits the index list on the exact
two-character separator `", "` and silently drops tokens that do not parse
as a `usize`.  Consequently `del(.[1,3])` (no space) parses the single token
`"1,3"`, drops it, and returns the array unchanged; and in `del(.[x, 1])`
the token `"x"` is dropped while `1` is still removed. -/
theorem C10_del_nospace (xs : List Value) :
    delete_function (Value.arr xs) "del(.[1,3])".toList = okR (Value.arr xs)
    ∧ delete_function (Value.arr xs) "del(.[x, 1])".toList =
        okR (Value.arr (removeIndices xs [1])) :=
  ⟨rfl, rfl⟩

/-- Claim C8: the `length` builtin is not total on Numbers — whenever
`as_i64` yields no value (any float, or a `u64` above `i64::MAX`), the
`expect` call panics (modelled as `panicked`); a value or typed error is
returned only when the Number has an `i64` value. -/
theorem C8_length_number_panic :
    (∀ n : JNumber, number_as_i64 n = none → length_function (Value.num n) = panicked)
    ∧ (∀ n : JNumber, length_function (Value.num n) ≠ panicked →
        ∃ k : Int, number_as_i64 n = some k) := by
  constructor
  · intro n h
    simp only [length_function, h]
  · intro n hne
    cases hn : number_as_i64 n with
    | none => exact absurd (by simp only [length_function, hn]) hne
    | some k => exact ⟨k, rfl⟩

/-- Witness for C8 at the two panicking shapes the claim names: a float and
the unsigned value `2^63 > i64::MAX`. -/
theorem C8_length_number_panic_witness :
    length_function (Value.num JNumber.float) = panicked
    ∧ length_function (Value.num (JNumber.posInt (2 ^ 63))) = panicked :=
  ⟨C8_length_number_panic.1 JNumber.float rfl,
   C8_length_number_panic.1 (JNumber.posInt (2 ^ 63)) (by decide)⟩

/-- Counterexample to claim C5 as stated: at `i64::MIN` the code computes
`i64::MIN.abs()`, which overflows and panics (debug build) instead of
returning the absolute value `2^63`. -/
theorem C5_length_counterexample :
    length_function (Value.num (JNumber.negInt (-(2 ^ 63)))) = panicked
    ∧ (panicked : Res Value) ≠ okR (Value.num (JNumber.posInt (2 ^ 63))) := by
  constructor
  · rfl
  · simp [panicked, okR]

/-- Claim C5 (amended): `length` returns the element count of an Array, the
character count of a String, the key count of an Object, `0` for Null,
`InvalidInput` for a Bool, and for a Number with an `i64` value other than
`i64::MIN` the absolute value of that integer. -/
theorem C5_length_cases :
    (∀ xs : List Value, length_function (Value.arr xs) = okR (Value.num (JNumber.posInt xs.length)))
    ∧ (∀ s : List Char, length_function (Value.str s) = okR (Value.num (JNumber.posInt s.length)))
    ∧ (∀ kvs : List (List Char × Value),
        length_function (Value.obj kvs) = okR (Value.num (JNumber.posInt kvs.length)))
    ∧ length_function Value.null = okR (Value.num (JNumber.posInt 0))
    ∧ (∀ b : Bool, length_function (Value.bool b) = errR MyErrors.invalidInput)
    ∧ (∀ (n : JNumber) (k : Int), number_as_i64 n = some k → k ≠ i64min →
        length_function (Value.num n) = okR (Value.num (JNumber.posInt k.natAbs))) := by
  refine ⟨fun xs => rfl, fun s => rfl, fun kvs => rfl, rfl, fun b => rfl, ?_⟩
  intro n k hk hkmin
  simp only [length_function, hk]
  rw [if_neg hkmin]

/-- Witness for C5 at a negative number: `length` of `-5` is `5`. -/
theorem C5_length_cases_witness :
    length_function (Value.num (JNumber.negInt (-5))) =
      okR (Value.num (JNumber.posInt (Int.natAbs (-5)))) :=
  C5_length_cases.2.2.2.2.2 (JNumber.negInt (-5)) (-5) rfl (by decide)

/-- Counterexample to claim C4 as stated: `[2^63]` is all-numeric, but
`filter_map(as_i64)` silently drops the element (it exceeds `i64::MAX`), so
`add` returns `0` instead of the arithmetic sum `2^63`. -/
theorem C4_add_counterexample :
    add_function (Value.arr [Value.num (JNumber.posInt (2 ^ 63))]) =
      okR (Value.num (JNumber.posInt 0))
    ∧ (okR (Value.num (JNumber.posInt 0)) : Res Value) ≠
        okR (Value.num (JNumber.posInt (2 ^ 63))) := by
  constructor
  · rfl
  · simp [okR]

/-- Claim C4 (amended): over every all-numeric Array, `add` returns the
`i64` sum of the elements' `as_i64` images — the elements with no `i64`
value (floats, `u64` values above `i64::MAX`) are silently dropped from the
sum, so inserting such an element anywhere in an all-numeric array leaves
the result unchanged (second conjunct); over a nonempty all-string Array it
returns the concatenation; the empty array sums to `0`; mixed-type arrays
and non-Array inputs fail `InvalidInput`.  (A checked-sum overflow is the
debug panic, excluded by the `i64sum … = some s` hypothesis.) -/
theorem C4_add_cases :
    (∀ (xs : List Value) (s : Int), xs.all value_is_number = true →
        i64sum (xs.filterMap value_as_i64) 0 = some s →
        add_function (Value.arr xs) = okR (Value.num (numOfInt s)))
    ∧ (∀ (pre post : List Value) (v : Value), value_is_number v = true →
        value_as_i64 v = none → (pre ++ post).all value_is_number = true →
        add_function (Value.arr (pre ++ v :: post)) = add_function (Value.arr (pre ++ post)))
    ∧ (∀ ss : List (List Char), ss ≠ [] →
        add_function (Value.arr (ss.map Value.str)) = okR (Value.str ss.flatten))
    ∧ add_function (Value.arr []) = okR (Value.num (JNumber.posInt 0))
    ∧ (∀ xs : List Value, xs.all value_is_number = false → xs.all value_is_string = false →
        add_function (Value.arr xs) = errR MyErrors.invalidInput)
    ∧ (∀ v : Value, (∀ xs, v ≠ Value.arr xs) → add_function v = errR MyErrors.invalidInput)
    ∧ add_function (Value.arr [Value.str "a".toList, Value.str "b".toList]) =
        okR (Value.str "ab".toList)
    ∧ add_function (Value.arr [Value.num (JNumber.posInt 1), Value.str "x".toList]) =
        errR MyErrors.invalidInput := by
  refine ⟨?_, ?_, ?_, rfl, ?_, ?_, rfl, rfl⟩
  · intro xs s hall hsum
    simp only [add_function]
    rw [if_pos hall, hsum]
  · intro pre post v hv hnone hall
    rw [List.all_append, Bool.and_eq_true] at hall
    have hall' : (pre ++ v :: post).all value_is_number = true := by
      rw [List.all_append, List.all_cons, Bool.and_eq_true, Bool.and_eq_true]
      exact ⟨hall.1, hv, hall.2⟩
    have hfm : (pre ++ v :: post).filterMap value_as_i64 =
        (pre ++ post).filterMap value_as_i64 := by
      simp only [List.filterMap_append, List.filterMap_cons, hnone]
    simp only [add_function]
    rw [if_pos hall', if_pos (by rw [List.all_append, Bool.and_eq_true]; exact hall), hfm]
  · intro ss hne
    obtain ⟨t, ts, rfl⟩ : ∃ t ts, ss = t :: ts := by
      cases ss with
      | nil => exact absurd rfl hne
      | cons t ts => exact ⟨t, ts, rfl⟩
    have hnum : ((t :: ts).map Value.str).all value_is_number = false := by
      simp [value_is_number]
    have hstr : ((t :: ts).map Value.str).all value_is_string = true := by
      rw [List.all_eq_true]
      intro x hx
      obtain ⟨s, _, rfl⟩ := List.mem_map.mp hx
      rfl
    simp only [add_function]
    rw [if_neg (by rw [hnum]; simp), if_pos hstr, filterMap_as_string_map_str]
  · intro xs h1 h2
    simp only [add_function]
    rw [if_neg (by simp [h1]), if_neg (by simp [h2])]
  · intro v h
    cases v with
    | arr xs => exact absurd rfl (h xs)
    | null => rfl
    | bool b => rfl
    | num n => rfl
    | str s => rfl
    | obj kvs => rfl

/-- Witness for C4: a sum over a numeric array in which a float and a huge
`u64` are silently dropped (`[float, -2, 2^63, 5]` sums to `3`), the
drop-invariance conjunct at a concrete insertion, and a string
concatenation. -/
theorem C4_add_cases_witness :
    add_function (Value.arr [Value.num JNumber.float, Value.num (JNumber.negInt (-2)),
        Value.num (JNumber.posInt (2 ^ 63)), Value.num (JNumber.posInt 5)]) =
      okR (Value.num (numOfInt 3))
    ∧ add_function (Value.arr ([Value.num (JNumber.posInt 5)] ++ Value.num JNumber.float ::
        [Value.num (JNumber.posInt 2)])) =
      add_function (Value.arr ([Value.num (JNumber.posInt 5)] ++ [Value.num (JNumber.posInt 2)]))
    ∧ add_function (Value.arr (["x".toList, "y".toList].map Value.str)) =
        okR (Value.str ["x".toList, "y".toList].flatten) :=
  ⟨C4_add_cases.1 _ 3 rfl (by decide),
   C4_add_cases.2.1 [Value.num (JNumber.posInt 5)] [Value.num (JNumber.posInt 2)]
     (Value.num JNumber.float) rfl rfl rfl,
   C4_add_cases.2.2.1 _ (by simp)⟩

/-! ### Pipeline fan-out and error propagation -/

/-- Per-element collection of builtin results, used to state what the
pipeline `.[] | length` computes. -/
def collectResults (f : Value → Res Value) : List Value → Res (List Value)
  | [] => okR []
  | x :: xs => bindRes (f x) fun v => bindRes (collectResults f xs) fun vs => okR (v :: vs)

theorem fanOutStep_length_eq (A : List Value) :
    fanOutStep A "length".toList = collectResults length_function A := by
  induction A with
  | nil => rfl
  | cons x xs ih =>
    show (match bindRes (length_function x) (fun v => okR (FilterResult.singleValue v)) with
          | none => none
          | some (Except.error e) => some (Except.error e)
          | some (Except.ok (FilterResult.singleValue v)) =>
            bindRes (fanOutStep xs "length".toList) fun vs => okR (v :: vs)
          | some (Except.ok (FilterResult.iterator nested)) =>
            bindRes (fanOutStep xs "length".toList) fun vs => okR (nested ++ vs)) =
      bindRes (length_function x) fun v =>
        bindRes (collectResults length_function xs) fun vs => okR (v :: vs)
    cases hl : length_function x with
    | none => rfl
    | some r =>
      cases r with
      | error e => rfl
      | ok v =>
        show (bindRes (fanOutStep xs "length".toList) fun vs => okR (v :: vs)) =
          bindRes (collectResults length_function xs) fun vs => okR (v :: vs)
        rw [ih]

/-- Counterexample to claim C1 as stated: over `[[1,2],[3]]` with
`.[] | . | length`, the claim's reading — each fanned-out element evaluated
against the whole remaining chain `. | length`, outcomes `2` and `1`
collected into one array — predicts `Single([2,1])`; the code instead
evaluates each element against only the next stage `.`, rebuilds the array
`[[1,2],[3]]` and applies `length` to it, returning `Single(2)`.  The middle
conjuncts substantiate the claim's per-element remaining-chain outcomes by
single-stage evaluations. -/
theorem C1_fanout_counterexample :
    pipe (Value.arr [Value.arr [Value.num (JNumber.posInt 1), Value.num (JNumber.posInt 2)],
        Value.arr [Value.num (JNumber.posInt 3)]]) ".[] | . | length".toList =
      okR (FilterResult.singleValue (Value.num (JNumber.posInt 2)))
    ∧ filter_input (Value.arr [Value.num (JNumber.posInt 1), Value.num (JNumber.posInt 2)])
        ".".toList = okR (FilterResult.singleValue
          (Value.arr [Value.num (JNumber.posInt 1), Value.num (JNumber.posInt 2)]))
    ∧ filter_input (Value.arr [Value.num (JNumber.posInt 1), Value.num (JNumber.posInt 2)])
        "length".toList = okR (FilterResult.singleValue (Value.num (JNumber.posInt 2)))
    ∧ filter_input (Value.arr [Value.num (JNumber.posInt 3)]) ".".toList =
        okR (FilterResult.singleValue (Value.arr [Value.num (JNumber.posInt 3)]))
    ∧ filter_input (Value.arr [Value.num (JNumber.posInt 3)]) "length".toList =
        okR (FilterResult.singleValue (Value.num (JNumber.posInt 1)))
    ∧ okR (FilterResult.singleValue (Value.num (JNumber.posInt 2))) ≠
        okR (FilterResult.singleValue
          (Value.arr [Value.num (JNumber.posInt 2), Value.num (JNumber.posInt 1)])) := by
  refine ⟨rfl, rfl, rfl, rfl, rfl, ?_⟩
  simp [okR]

/-- Claim C1 (amended): when a stage yields a Sequence and at least one
stage remains, every element is evaluated against the *next* stage only
(`Single` pushed, `Sequence` flattened, by `fanOutStep`); the combined array
becomes the current value and the loop continues with the stages after that;
a terminal Sequence is returned unresolved.  In particular `.[] | length`
over an array equals `length` applied to each element, collected. -/
theorem C1_fanout_next_stage :
    (∀ (current : Value) (n1 n2 : List Char) (rest : List (List Char)) (items : List Value),
        filter_input current n1 = okR (FilterResult.iterator items) →
        pipeLoop current (n1 :: n2 :: rest) =
          bindRes (fanOutStep items n2) fun ls => pipeLoop (Value.arr ls) rest)
    ∧ (∀ (current : Value) (n1 : List Char) (items : List Value),
        filter_input current n1 = okR (FilterResult.iterator items) →
        pipeLoop current [n1] = okR (FilterResult.iterator items))
    ∧ (∀ A : List Value,
        pipe (Value.arr A) ".[] | length".toList =
          bindRes (collectResults length_function A) fun ls =>
            okR (FilterResult.singleValue (Value.arr ls))) := by
  refine ⟨?_, ?_, ?_⟩
  · intro current n1 n2 rest items h
    rw [pipeLoop, h]
    show (match fanOutStep items n2 with
          | none => none
          | some (Except.error e) => some (Except.error e)
          | some (Except.ok ls) => pipeLoop (Value.arr ls) rest) =
      bindRes (fanOutStep items n2) fun ls => pipeLoop (Value.arr ls) rest
    cases fanOutStep items n2 with
    | none => rfl
    | some r =>
      cases r with
      | error e => rfl
      | ok ls => rfl
  · intro current n1 items h
    rw [pipeLoop, h]
    rfl
  · intro A
    show pipeLoop (Value.arr A) [".[]".toList, "length".toList] = _
    have h0 : filter_input (Value.arr A) ".[]".toList = okR (FilterResult.iterator A) := rfl
    rw [pipeLoop, h0]
    show (match fanOutStep A "length".toList with
          | none => none
          | some (Except.error e) => some (Except.error e)
          | some (Except.ok ls) => pipeLoop (Value.arr ls) []) =
      bindRes (collectResults length_function A) fun ls =>
        okR (FilterResult.singleValue (Value.arr ls))
    rw [fanOutStep_length_eq]
    cases collectResults length_function A with
    | none => rfl
    | some r =>
      cases r with
      | error e => rfl
      | ok ls => rfl

/-- Witness for C1: the fan-out step at a concrete one-element array. -/
theorem C1_fanout_next_stage_witness :
    pipeLoop (Value.arr [Value.null]) [".[]".toList, "length".toList] =
      bindRes (fanOutStep [Value.null] "length".toList) fun ls => pipeLoop (Value.arr ls) [] :=
  C1_fanout_next_stage.1 (Value.arr [Value.null]) ".[]".toList "length".toList [] [Value.null] rfl

/-- Claim C2: a `" | "`-separated expression runs the staging loop; a
failing stage aborts the loop with exactly that stage's error, and a failing
element inside a fan-out aborts with the first failing element's error. -/
theorem C2_error_propagation :
    (∀ (input : Value) (needle : List Char), containsSub " | ".toList needle = true →
        pipe input needle = pipeLoop input (splitSub " | ".toList needle))
    ∧ (∀ (current : Value) (n : List Char) (rest : List (List Char)) (e : MyErrors),
        filter_input current n = errR e → pipeLoop current (n :: rest) = errR e)
    ∧ (∀ (current : Value) (n n2 : List Char) (rest : List (List Char)) (items : List Value)
        (e : MyErrors),
        filter_input current n = okR (FilterResult.iterator items) →
        fanOutStep items n2 = errR e →
        pipeLoop current (n :: n2 :: rest) = errR e)
    ∧ (∀ (pre : List Value) (x : Value) (post : List Value) (n2 : List Char) (e : MyErrors),
        (∀ y ∈ pre, ∃ r, filter_input y n2 = okR r) →
        filter_input x n2 = errR e →
        fanOutStep (pre ++ x :: post) n2 = errR e) := by
  refine ⟨?_, ?_, ?_, ?_⟩
  · intro input needle h
    rw [pipe, if_pos h]
  · intro current n rest e h
    rw [pipeLoop, h]
    rfl
  · intro current n n2 rest items e h hf
    rw [pipeLoop, h]
    show (match fanOutStep items n2 with
          | none => none
          | some (Except.error e) => some (Except.error e)
          | some (Except.ok ls) => pipeLoop (Value.arr ls) rest) = errR e
    rw [hf]
    rfl
  · intro pre
    induction pre with
    | nil =>
      intro x post n2 e _ hx
      rw [List.nil_append, fanOutStep, hx]
      rfl
    | cons y pre ih =>
      intro x post n2 e hpre hx
      obtain ⟨r, hy⟩ := hpre y (by simp)
      cases r with
      | singleValue v =>
        rw [List.cons_append, fanOutStep, hy,
          ih x post n2 e (fun z hz => hpre z (by simp [hz])) hx]
        rfl
      | iterator vs =>
        rw [List.cons_append, fanOutStep, hy,
          ih x post n2 e (fun z hz => hpre z (by simp [hz])) hx]
        rfl

/-- Witness for C2: a `KeyNotFound` stage error aborts a two-stage pipeline,
and a fan-out whose second element fails `length` aborts with
`InvalidInput`. -/
theorem C2_error_propagation_witness :
    pipeLoop Value.null [".a".toList, "length".toList] =
      errR (MyErrors.keyNotFound "a".toList)
    ∧ fanOutStep [Value.arr [], Value.bool true] "length".toList = errR MyErrors.invalidInput :=
  ⟨C2_error_propagation.2.1 Value.null ".a".toList ["length".toList]
      (MyErrors.keyNotFound "a".toList) rfl,
   C2_error_propagation.2.2.2 [Value.arr []] (Value.bool true) [] "length".toList
      MyErrors.invalidInput (fun y hy => by
        rw [List.mem_singleton] at hy
        exact ⟨FilterResult.singleValue (Value.num (JNumber.posInt 0)), by rw [hy]; rfl⟩) rfl⟩

/-! ### The slice stage `.[a:b]` (claim C3) -/

/-- The slice expression `.[a:b]` with decimal bounds. -/
def sliceNeedle (a b : Nat) : List Char :=
  ".[".toList ++ (natToChars a ++ (":".toList ++ (natToChars b ++ "]".toList)))

theorem filter_input_bracket_slice (xs : List Value) (needle : List Char)
    (hne : needle ≠ ".".toList)
    (hcond : (".".toList.isPrefixOf needle && containsCh '[' needle && containsCh ']' needle) = true)
    {istart istop : Nat}
    (hopen : findSub "[".toList needle = some istart)
    (hclose : findSub "]".toList needle = some istop)
    {index_str : List Char}
    (hslice : sliceStr needle (istart + 1) istop = some index_str)
    (hnonempty : index_str.isEmpty = false)
    (hcolon : containsCh ':' index_str = true) :
    filter_input (Value.arr xs) needle =
      bindRes (array_slice (Value.arr xs) index_str) fun v =>
        okR (FilterResult.singleValue v) := by
  simp only [filter_input, if_neg hne, hcond, if_true, hopen, hclose, hslice, hnonempty,
    Bool.false_eq_true, if_false, hcolon]

theorem sliceNeedle_shape (a b : Nat) :
    sliceNeedle a b =
      ('.' :: '[' :: (natToChars a ++ ':' :: natToChars b)) ++ "]".toList := by
  simp [sliceNeedle]

theorem array_slice_digits (xs : List Value) (a b : Nat) (ha : a < 2 ^ 64) (hb : b < 2 ^ 64) :
    array_slice (Value.arr xs) (natToChars a ++ ':' :: natToChars b) =
      if a < b ∧ b ≤ xs.length
      then okR (Value.arr ((xs.drop a).take (b - a)))
      else errR MyErrors.indexOutOfBounds := by
  have hsplit : splitSub ":".toList (natToChars a ++ ':' :: natToChars b) =
      [natToChars a, natToChars b] := by
    have hch : ∀ t ∈ [natToChars a, natToChars b], ∀ c ∈ t, c ≠ ':' := by
      intro t ht c hc
      rcases List.mem_cons.mp ht with rfl | ht
      · exact digit_ne_of_toNat (natToChars_digits a c hc) (by decide)
      · rcases List.mem_cons.mp ht with rfl | ht
        · exact digit_ne_of_toNat (natToChars_digits b c hc) (by decide)
        · simp at ht
    have h := @splitSub_joinSep ':' [] [natToChars a, natToChars b] (by simp) hch
    simpa [joinSep] using h
  simp only [array_slice, hsplit]
  simp only [List.getElem?_cons_zero, List.getElem?_cons_succ,
    parseUsize_natToChars ha, parseUsize_natToChars hb]
  by_cases hab : a < b
  · rw [if_pos hab]
    by_cases hbx : b ≤ xs.length
    · rw [if_pos hbx, if_pos ⟨hab, hbx⟩]
    · rw [if_neg hbx, if_neg (fun h => hbx h.2)]
  · rw [if_neg hab, if_neg (fun h => hab h.1)]

/-- Claim C3: over an array of length `N`, the slice stage `.[a:b]` (with
`usize`-representable decimal bounds) succeeds iff `a < b ∧ b ≤ N`
(`0 ≤ a` holds by parsing), returning `Single` of the half-open range
`[a, b)`; out-of-condition bounds fail `IndexOutOfBounds`; on success the
result length is `b - a`; a negative bound such as `.[-1:2]` fails
`ParseError`. -/
theorem C3_slice_stage (xs : List Value) (a b : Nat) (ha : a < 2 ^ 64) (hb : b < 2 ^ 64) :
    (filter_input (Value.arr xs) (sliceNeedle a b) =
      if a < b ∧ b ≤ xs.length
      then okR (FilterResult.singleValue (Value.arr ((xs.drop a).take (b - a))))
      else errR MyErrors.indexOutOfBounds)
    ∧ (a < b → b ≤ xs.length → ((xs.drop a).take (b - a)).length = b - a)
    ∧ (∀ ys : List Value, filter_input (Value.arr ys) ".[-1:2]".toList =
        errR MyErrors.parseError) := by
  refine ⟨?_, ?_, fun ys => rfl⟩
  · have hAne := natToChars_ne_nil a
    have hshape := sliceNeedle_shape a b
    have hpreNoClose : ∀ x ∈ '.' :: '[' :: (natToChars a ++ ':' :: natToChars b), x ≠ ']' := by
      intro x hx
      rcases List.mem_cons.mp hx with rfl | hx
      · decide
      · rcases List.mem_cons.mp hx with rfl | hx
        · decide
        · rcases List.mem_append.mp hx with hx | hx
          · exact digit_ne_of_toNat (natToChars_digits a x hx) (by decide)
          · rcases List.mem_cons.mp hx with rfl | hx
            · decide
            · exact digit_ne_of_toNat (natToChars_digits b x hx) (by decide)
    have hne : sliceNeedle a b ≠ ".".toList := by
      intro h
      have hl := congrArg List.length h
      rw [hshape] at hl
      simp at hl
    have hshapeCons : sliceNeedle a b =
        '.' :: '[' :: (natToChars a ++ (':' :: (natToChars b ++ [']']))) := by
      simp [sliceNeedle]
    have hclose : findSub "]".toList (sliceNeedle a b) =
        some ('.' :: '[' :: (natToChars a ++ ':' :: natToChars b)).length := by
      rw [hshape, show "]".toList = [']'] from rfl, findSub_append_of_ne _ _ hpreNoClose,
        findSub_single_hit]
      simp
    have hopen : findSub "[".toList (sliceNeedle a b) = some 1 := by
      rw [show "[".toList = ['['] from rfl, hshapeCons, findSub_cons_ne _ (by decide),
        findSub_single_hit]
      rfl
    have hslice : sliceStr (sliceNeedle a b) (1 + 1)
        ('.' :: '[' :: (natToChars a ++ ':' :: natToChars b)).length =
        some (natToChars a ++ ':' :: natToChars b) := by
      rw [hshape, sliceStr, if_pos ⟨by simp, by simp⟩]
      rw [List.take_left]
      rfl
    have hnonempty : (natToChars a ++ ':' :: natToChars b).isEmpty = false := by
      cases hA : natToChars a with
      | nil => exact absurd hA hAne
      | cons c t => simp [hA]
    have hcolon : containsCh ':' (natToChars a ++ ':' :: natToChars b) = true := by
      show (findSub [':'] (natToChars a ++ ':' :: natToChars b)).isSome = true
      rw [findSub_append_of_ne _ _
        (fun x hx => digit_ne_of_toNat (natToChars_digits a x hx) (by decide)),
        findSub_single_hit]
      rfl
    rw [filter_input_bracket_slice xs (sliceNeedle a b) hne ?hcond hopen hclose hslice
      hnonempty hcolon]
    case hcond =>
      have h2 : containsCh '[' (sliceNeedle a b) = true := by
        show (findSub "[".toList (sliceNeedle a b)).isSome = true
        rw [hopen]
        rfl
      have h3 : containsCh ']' (sliceNeedle a b) = true := by
        show (findSub "]".toList (sliceNeedle a b)).isSome = true
        rw [hclose]
        rfl
      have h1 : ".".toList.isPrefixOf (sliceNeedle a b) = true := by
        rw [show ".".toList = ['.'] from rfl, hshapeCons, isPrefixOf_cons_cons,
          isPrefixOf_nil_left]
        simp
      rw [h1, h2, h3]
      rfl
    rw [array_slice_digits xs a b ha hb]
    by_cases hc : a < b ∧ b ≤ xs.length
    · rw [if_pos hc, if_pos hc]
      rfl
    · rw [if_neg hc, if_neg hc]
      rfl
  · intro h1 h2
    rw [List.length_take, List.length_drop]
    omega

/-- Witness for C3: slicing `[n0, n1, n2]` with `.[1:3]` yields the last two
elements. -/
theorem C3_slice_stage_witness :
    filter_input (Value.arr [Value.null, Value.bool true, Value.bool false]) (sliceNeedle 1 3) =
      okR (FilterResult.singleValue (Value.arr [Value.bool true, Value.bool false])) := by
  have h := (C3_slice_stage [Value.null, Value.bool true, Value.bool false] 1 3
    (by decide) (by decide)).1
  rw [h]
  rfl

/-! ### The `del(.[i, j, ...])` stage (claim C6) -/

/-- The delete expression `del(.[i, j, ...])` with decimal indices joined by
the separator `", "`. -/
def delNeedle (is : List Nat) : List Char :=
  "del(.[".toList ++ (joinSep ", ".toList (is.map natToChars) ++ "])".toList)

theorem delete_function_array (xs : List Value) (needle : List Char)
    (hparen : (containsCh '(' needle && containsCh ')' needle) = true)
    {pstart pstop : Nat}
    (hps : findSub "(".toList needle = some pstart)
    (hpe : findSub ")".toList needle = some pstop)
    {sub_needle : List Char}
    (hsub : sliceStr needle (pstart + 1) pstop = some sub_needle)
    (hobj : (".".toList.isPrefixOf sub_needle && !containsCh '[' sub_needle
        && !containsCh ']' sub_needle) = false)
    (harr : (".".toList.isPrefixOf sub_needle && containsCh '[' sub_needle
        && containsCh ']' sub_needle) = true)
    {istart istop : Nat}
    (his : findSub "[".toList needle = some istart)
    (hie : findSub "]".toList needle = some istop)
    {inner : List Char}
    (hinner : sliceStr needle (istart + 1) istop = some inner) :
    delete_function (Value.arr xs) needle =
      okR (Value.arr (removeIndices xs
        (List.insertionSort (· ≤ ·)
          ((splitSub ", ".toList inner).filterMap parseUsize)).reverse)) := by
  simp only [delete_function, hparen, if_true, hps, hpe, hsub, hobj, Bool.false_eq_true,
    if_false, harr, his, hie, hinner]

theorem filterMap_parseUsize_natToChars (is : List Nat) (hb : ∀ i ∈ is, i < 2 ^ 64) :
    (is.map natToChars).filterMap parseUsize = is := by
  induction is with
  | nil => rfl
  | cons i is ih =>
    simp only [List.map_cons, List.filterMap_cons, parseUsize_natToChars (hb i (by simp))]
    rw [ih (fun j hj => hb j (by simp [hj]))]

/-- Claim C6 (amended): for pairwise-distinct `usize` indices, the
descending-order removal deletes exactly the listed positions that are in
range, silently ignoring the rest. -/
theorem C6_del_distinct (xs : List Value) (is : List Nat) (hne : is ≠ [])
    (hnd : is.Nodup) (hb : ∀ i ∈ is, i < 2 ^ 64) :
    delete_function (Value.arr xs) (delNeedle is) = okR (Value.arr (keepNot is xs 0)) := by
  have hD : ∀ c ∈ joinSep ", ".toList (is.map natToChars),
      (48 ≤ c.toNat ∧ c.toNat ≤ 57) ∨ c = ',' ∨ c = ' ' := by
    intro c hc
    rcases mem_joinSep hc with hsep | ⟨t, ht, hct⟩
    · right
      have hsep' : c ∈ [',', ' '] := hsep
      rcases List.mem_cons.mp hsep' with rfl | hsep'
      · exact Or.inl rfl
      · rcases List.mem_cons.mp hsep' with rfl | hsep'
        · exact Or.inr rfl
        · simp at hsep'
    · left
      obtain ⟨i, _, rfl⟩ := List.mem_map.mp ht
      exact natToChars_digits i c hct
  have hDne : ∀ x : Char, (x.toNat < 32 ∨ (32 < x.toNat ∧ x.toNat < 44) ∨
      (44 < x.toNat ∧ x.toNat < 48) ∨ 57 < x.toNat) →
      ∀ c ∈ joinSep ", ".toList (is.map natToChars), c ≠ x := by
    intro x hx c hc hcx
    subst hcx
    rcases hD c hc with hdig | heq | heq
    · omega
    · rw [heq] at hx
      have h44 : (',' : Char).toNat = 44 := rfl
      omega
    · rw [heq] at hx
      have h32 : (' ' : Char).toNat = 32 := rfl
      omega
  have hDparen := hDne ')' (by decide)
  have hDclose := hDne ']' (by decide)
  have hshapeCons : delNeedle is =
      'd' :: 'e' :: 'l' :: '(' :: '.' :: '[' ::
        (joinSep ", ".toList (is.map natToChars) ++ [']', ')']) := by
    simp [delNeedle]
  have hshape1 : delNeedle is =
      ('d' :: 'e' :: 'l' :: '(' :: '.' :: '[' ::
        (joinSep ", ".toList (is.map natToChars) ++ [']'])) ++ [')'] := by
    simp [delNeedle, List.append_assoc]
  have hshape2 : delNeedle is =
      ('d' :: 'e' :: 'l' :: '(' :: '.' :: '[' :: joinSep ", ".toList (is.map natToChars)) ++
        (']' :: [')']) := by
    simp [delNeedle, List.append_assoc]
  have hps : findSub "(".toList (delNeedle is) = some 3 := by
    rw [show "(".toList = ['('] from rfl, hshapeCons, findSub_cons_ne _ (by decide),
      findSub_cons_ne _ (by decide), findSub_cons_ne _ (by decide), findSub_single_hit]
    rfl
  have hpre1 : ∀ x ∈ 'd' :: 'e' :: 'l' :: '(' :: '.' :: '[' ::
      (joinSep ", ".toList (is.map natToChars) ++ [']']), x ≠ ')' := by
    intro x hx
    rcases List.mem_cons.mp hx with rfl | hx
    · decide
    rcases List.mem_cons.mp hx with rfl | hx
    · decide
    rcases List.mem_cons.mp hx with rfl | hx
    · decide
    rcases List.mem_cons.mp hx with rfl | hx
    · decide
    rcases List.mem_cons.mp hx with rfl | hx
    · decide
    rcases List.mem_cons.mp hx with rfl | hx
    · decide
    rcases List.mem_append.mp hx with hx | hx
    · exact hDparen x hx
    · rcases List.mem_cons.mp hx with rfl | hx
      · decide
      · simp at hx
  have hpe : findSub ")".toList (delNeedle is) =
      some ('d' :: 'e' :: 'l' :: '(' :: '.' :: '[' ::
        (joinSep ", ".toList (is.map natToChars) ++ [']'])).length := by
    rw [hshape1, show ")".toList = [')'] from rfl, findSub_append_of_ne _ _ hpre1,
      findSub_single_hit]
    simp
  have hsub : sliceStr (delNeedle is) (3 + 1)
      ('d' :: 'e' :: 'l' :: '(' :: '.' :: '[' ::
        (joinSep ", ".toList (is.map natToChars) ++ [']'])).length =
      some ('.' :: '[' :: (joinSep ", ".toList (is.map natToChars) ++ [']'])) := by
    rw [hshape1, sliceStr, if_pos ⟨by simp, by simp⟩, List.take_left]
    rfl
  have hsubOpen : containsCh '['
      ('.' :: '[' :: (joinSep ", ".toList (is.map natToChars) ++ [']'])) = true := by
    show (findSub ['[']
      ('.' :: '[' :: (joinSep ", ".toList (is.map natToChars) ++ [']']))).isSome = true
    rw [findSub_cons_ne _ (by decide), findSub_single_hit]
    rfl
  have hsubshape : '.' :: '[' :: (joinSep ", ".toList (is.map natToChars) ++ [']']) =
      ('.' :: '[' :: joinSep ", ".toList (is.map natToChars)) ++ [']'] := by
    simp
  have hsubClose : containsCh ']'
      ('.' :: '[' :: (joinSep ", ".toList (is.map natToChars) ++ [']'])) = true := by
    show (findSub [']']
      ('.' :: '[' :: (joinSep ", ".toList (is.map natToChars) ++ [']']))).isSome = true
    rw [hsubshape, findSub_append_of_ne _ _ ?hpre, findSub_single_hit]
    · rfl
    case hpre =>
      intro x hx
      rcases List.mem_cons.mp hx with rfl | hx
      · decide
      rcases List.mem_cons.mp hx with rfl | hx
      · decide
      exact hDclose x hx
  have hsubPre : ".".toList.isPrefixOf
      ('.' :: '[' :: (joinSep ", ".toList (is.map natToChars) ++ [']'])) = true := by
    rw [show ".".toList = ['.'] from rfl, isPrefixOf_cons_cons, isPrefixOf_nil_left]
    simp
  have hobj : (".".toList.isPrefixOf
        ('.' :: '[' :: (joinSep ", ".toList (is.map natToChars) ++ [']'])) &&
      !containsCh '[' ('.' :: '[' :: (joinSep ", ".toList (is.map natToChars) ++ [']'])) &&
      !containsCh ']' ('.' :: '[' :: (joinSep ", ".toList (is.map natToChars) ++ [']'])))
      = false := by
    rw [hsubOpen]
    simp
  have harr : (".".toList.isPrefixOf
        ('.' :: '[' :: (joinSep ", ".toList (is.map natToChars) ++ [']'])) &&
      containsCh '[' ('.' :: '[' :: (joinSep ", ".toList (is.map natToChars) ++ [']'])) &&
      containsCh ']' ('.' :: '[' :: (joinSep ", ".toList (is.map natToChars) ++ [']'])))
      = true := by
    rw [hsubPre, hsubOpen, hsubClose]
    rfl
  have his : findSub "[".toList (delNeedle is) = some 5 := by
    rw [show "[".toList = ['['] from rfl, hshapeCons, findSub_cons_ne _ (by decide),
      findSub_cons_ne _ (by decide), findSub_cons_ne _ (by decide),
      findSub_cons_ne _ (by decide), findSub_cons_ne _ (by decide), findSub_single_hit]
    rfl
  have hpre2 : ∀ x ∈ 'd' :: 'e' :: 'l' :: '(' :: '.' :: '[' ::
      joinSep ", ".toList (is.map natToChars), x ≠ ']' := by
    intro x hx
    rcases List.mem_cons.mp hx with rfl | hx
    · decide
    rcases List.mem_cons.mp hx with rfl | hx
    · decide
    rcases List.mem_cons.mp hx with rfl | hx
    · decide
    rcases List.mem_cons.mp hx with rfl | hx
    · decide
    rcases List.mem_cons.mp hx with rfl | hx
    · decide
    rcases List.mem_cons.mp hx with rfl | hx
    · decide
    exact hDclose x hx
  have hie : findSub "]".toList (delNeedle is) =
      some ('d' :: 'e' :: 'l' :: '(' :: '.' :: '[' ::
        joinSep ", ".toList (is.map natToChars)).length := by
    rw [hshape2, show "]".toList = [']'] from rfl, findSub_append_of_ne _ _ hpre2,
      findSub_single_hit]
    simp
  have hinner : sliceStr (delNeedle is) (5 + 1)
      ('d' :: 'e' :: 'l' :: '(' :: '.' :: '[' ::
        joinSep ", ".toList (is.map natToChars)).length =
      some (joinSep ", ".toList (is.map natToChars)) := by
    rw [hshape2, sliceStr, if_pos ⟨by simp, by simp⟩, List.take_left]
    rfl
  have hparen : (containsCh '(' (delNeedle is) && containsCh ')' (delNeedle is)) = true := by
    have h1 : containsCh '(' (delNeedle is) = true := by
      show (findSub "(".toList (delNeedle is)).isSome = true
      rw [hps]
      rfl
    have h2 : containsCh ')' (delNeedle is) = true := by
      show (findSub ")".toList (delNeedle is)).isSome = true
      rw [hpe]
      rfl
    rw [h1, h2]
    rfl
  rw [delete_function_array xs (delNeedle is) hparen hps hpe hsub hobj harr his hie hinner]
  have hsplit : splitSub ", ".toList (joinSep ", ".toList (is.map natToChars)) =
      is.map natToChars := by
    rw [show ", ".toList = ',' :: [' '] from rfl]
    apply splitSub_joinSep
    · simpa using hne
    · intro t ht c hc
      obtain ⟨i, _, rfl⟩ := List.mem_map.mp ht
      exact digit_ne_of_toNat (natToChars_digits i c hc) (by decide)
  rw [hsplit, filterMap_parseUsize_natToChars is hb, removeIndices_sortDesc xs is hnd]

/-- Witness for C6: removing positions 1 and 3 from a four-element array. -/
theorem C6_del_distinct_witness :
    delete_function
      (Value.arr [Value.null, Value.bool true, Value.bool false, Value.null])
      (delNeedle [1, 3]) = okR (Value.arr [Value.null, Value.bool false]) := by
  have h := C6_del_distinct [Value.null, Value.bool true, Value.bool false, Value.null]
    [1, 3] (by decide) (by decide) (by decide)
  rw [h]
  rfl

/-- Counterexample to claim C6 as stated: with the duplicated index list
`del(.[1, 1])` over a four-element array, the second removal of index `1`
passes the (current-length) bounds check and deletes the element that
originally sat at position 2, so the result is not "the array with exactly
the valid listed positions removed" (`keepNot [1,1]` keeps position 2). -/
theorem C6_del_dup_counterexample :
    delete_function (Value.arr [Value.null, Value.bool true, Value.bool false, Value.null])
        "del(.[1, 1])".toList = okR (Value.arr [Value.null, Value.null])
    ∧ keepNot [1, 1] [Value.null, Value.bool true, Value.bool false, Value.null] 0 =
        [Value.null, Value.bool false, Value.null]
    ∧ (okR (Value.arr [Value.null, Value.null]) : Res Value) ≠
        okR (Value.arr [Value.null, Value.bool false, Value.null]) := by
  refine ⟨rfl, rfl, ?_⟩
  simp [okR]
